import Mathlib

/-!
Verification of the client-side session coordinator of a single-page chat
application (React frontend of `allianz-agent-poc`).

The shallow embedding below translates the stateful React component `App`
(conversation log, document registry, upload progress) and the pure utility
`needsWebSearch` into Lean definitions.  Remote collaborator calls (chat,
delete, upload) are modelled by passing their outcome (`Except`) as an
explicit argument to the corresponding handler; the browser `localStorage`
slot is modelled as an `Option String`; `JSON.stringify` / `JSON.parse`
restricted to the canonical serialization of a message array are modelled by
the concrete functions `stringifyMessages` / `parseMessages`.
-/

/-- A chat message, as in `src/App.js`: `\x7b role: "user" | "assistant", content \x7d`. -/
structure Message where
  role : String
  content : String
deriving DecidableEq

/-- A document registry entry: `\x7b document_id, filename \x7d`. -/
structure Document where
  document_id : String
  filename : String
deriving DecidableEq

/-- The state owned by the `App` component: `messages`, `inputMessage`,
`isLoading`, `documents` (the four `useState` hooks). -/
structure AppState where
  messages : List Message
  inputMessage : String
  isLoading : Bool
  documents : List Document
deriving DecidableEq

/-! ## WebSearchHeuristic (`src/utils/webSearchDetection.js`) -/

/-- ASCII lower-casing of one character, modelling JS `toLowerCase` on the
ASCII range (all inputs considered here are ASCII). -/
def lowerChar (c : Char) : Char :=
  if 65 ≤ c.toNat ∧ c.toNat ≤ 90 then Char.ofNat (c.toNat + 32) else c

/-- Lower-case a string character-wise (model of `message.toLowerCase()`). -/
def lowerStr (s : String) : String :=
  String.mk (s.data.map lowerChar)

/-- Decides whether `pre` is a prefix of `cs`. -/
def isPre : List Char → List Char → Bool
  | [], _ => true
  | _ :: _, [] => false
  | p :: ps, c :: cs => p = c && isPre ps cs

/-- Decides whether `sub` occurs as a contiguous substring of `cs`. -/
def containsL (sub : List Char) : List Char → Bool
  | [] => isPre sub []
  | c :: cs => isPre sub (c :: cs) || containsL sub cs

/-- Substring test on strings: JS `lowerMessage.includes(trigger)` and the
alternation-of-literals regular expressions `.test(lowerMessage)` both reduce
to this. -/
def strContains (s sub : String) : Bool :=
  containsL sub.data s.data

/-- The fixed trigger vocabulary `webSearchTriggers` from the source. -/
def webSearchTriggers : List String :=
  ["current", "latest", "recent", "today", "news", "update",
   "what is happening", "developments", "trend", "weather",
   "stock", "price", "market", "comparison", "versus", "vs",
   "outside", "online", "web", "internet", "search"]

/-- The alternatives of the temporal regular expression
`/today|now|current|latest|recent|this (week|month|year)/`. -/
def timePatterns : List String :=
  ["today", "now", "current", "latest", "recent",
   "this week", "this month", "this year"]

/-- The alternatives of the wh-word regular expression
`/what|who|when|where|why|how/`. -/
def whWords : List String :=
  ["what", "who", "when", "where", "why", "how"]

/-- `needsWebSearch` from `src/utils/webSearchDetection.js`: three OR-combined
signals over the lower-cased text — temporal reference, trigger vocabulary,
and wh-word question with the document/file exclusion. -/
def needsWebSearch (message : String) : Bool :=
  let lowerMessage := lowerStr message
  let hasTimeReference := timePatterns.any (fun p => strContains lowerMessage p)
  let hasTriggerWord := webSearchTriggers.any (fun t => strContains lowerMessage t)
  let isQuestionAboutWorld :=
    whWords.any (fun w => strContains lowerMessage w)
      && !(strContains lowerMessage "document") && !(strContains lowerMessage "file")
  hasTimeReference || hasTriggerWord || isQuestionAboutWorld

/-- Apostrophe character, used to spell test inputs without quoting issues. -/
def apos : Char := Char.ofNat 39

/-- The concrete query string `What is` (with an apostrophe-s contraction in
place of ` is`) ` the latest stock price?` from the spec's test table. -/
def latestStockPriceQuery : String :=
  "What" ++ String.mk [apos] ++ "s the latest stock price?"

/-! ## SessionCoordinator (`src/App.js`) -/

/-- Blank-input test: models the guard `inputMessage.trim() === ''` in
`handleSendMessage` — a JS string trims to the empty string exactly when all
of its characters are whitespace. -/
def isBlank (s : String) : Bool :=
  s.data.all Char.isWhitespace

/-- The fixed fallback assistant content appended when the chat call fails. -/
def fallbackContent : String :=
  "Sorry, I encountered an error. Please try again."

/-- `handleSendMessage` from `src/App.js`, with the outcome of the awaited
`sendMessage` collaborator call passed explicitly (`.ok content` for a
successful response `\x7b content \x7d`, `.error ()` for a thrown transport
error).  Returns the final component state after the `try/catch/finally`
together with the request handed to the collaborator (`none` when the blank
guard fires and no call is made): the request is the full history including
the optimistic user message, plus the web-search flag computed on the raw
input. -/
def handleSendMessage (s : AppState) (result : Except Unit String) :
    AppState × Option (List Message × Bool) :=
  if isBlank s.inputMessage then (s, none)
  else
    let userMessage : Message := ⟨"user", s.inputMessage⟩
    let request := (s.messages ++ [userMessage], needsWebSearch s.inputMessage)
    match result with
    | .ok content =>
        ({ s with messages := (s.messages ++ [userMessage]) ++ [⟨"assistant", content⟩],
                  inputMessage := "", isLoading := false }, some request)
    | .error _ =>
        ({ s with messages := (s.messages ++ [userMessage]) ++ [⟨"assistant", fallbackContent⟩],
                  inputMessage := "", isLoading := false }, some request)

/-- Content of the informational message appended by `handleFileUpload`. -/
def uploadSuccessContent (fileName : String) : String :=
  "File \"" ++ fileName ++ "\" has been uploaded successfully. You can now ask questions about its content."

/-- `handleFileUpload` from `src/App.js`: refreshes the document list (the
refreshed authoritative list `docs` returned by `fetchDocuments` is passed
explicitly) and appends the informational assistant message naming the file. -/
def handleFileUpload (s : AppState) (fileName : String) (docs : List Document) : AppState :=
  { s with documents := docs,
           messages := s.messages ++ [⟨"assistant", uploadSuccessContent fileName⟩] }

/-- Confirmation message appended on successful document deletion. -/
def deleteSuccessMsg : Message :=
  ⟨"assistant", "Document has been deleted successfully."⟩

/-- Error message appended on failed document deletion. -/
def deleteErrorMsg : Message :=
  ⟨"assistant", "Error deleting document. Please try again."⟩

/-- `handleDocumentDelete` from `src/App.js`, with the outcome of the awaited
`deleteDocument` collaborator call passed explicitly.  On success the local
registry is filtered by id and a confirmation message appended; on failure
(catch branch) only the error message is appended.  Both branches return
normally: the failure never escapes the handler. -/
def handleDocumentDelete (s : AppState) (documentId : String) (result : Except Unit Unit) :
    AppState :=
  match result with
  | .ok _ =>
      { s with documents := s.documents.filter (fun doc => doc.document_id != documentId),
               messages := s.messages ++ [deleteSuccessMsg] }
  | .error _ =>
      { s with messages := s.messages ++ [deleteErrorMsg] }

/-! ## UploadCoordinator (`src/utils/api.js` and
`src/components/FileUpload/index.js`) -/

/-- The progress computation in `uploadDocument`:
`Math.round((progressEvent.loaded * 100) / progressEvent.total)`, i.e. the
half-up rounding of `loaded * 100 / total`, expressed over naturals as
`(loaded * 100 * 2 + total) / (2 * total)`. -/
def percentCompleted (loaded total : Nat) : Nat :=
  (loaded * 100 * 2 + total) / (2 * total)

/-- The transient state of the `FileUpload` component: `selectedFile`,
`isUploading` (the `status` of the spec: `uploading` iff `true`), and
`uploadProgress`. -/
structure UploadState where
  selectedFile : Option String
  isUploading : Bool
  uploadProgress : Nat
deriving DecidableEq

/-- `handleUpload` from `src/components/FileUpload/index.js`, with the outcome
of the awaited `uploadDocument` call passed explicitly: final component state
after the `try/catch/finally`.  No file selected is a no-op; on success the
selection is cleared; on both outcomes the `finally` block sets
`isUploading := false` and `uploadProgress := 0`. -/
def handleUpload (s : UploadState) (result : Except Unit Unit) : UploadState :=
  match s.selectedFile with
  | none => s
  | some _ =>
      match result with
      | .ok _ => { selectedFile := none, isUploading := false, uploadProgress := 0 }
      | .error _ => { s with isUploading := false, uploadProgress := 0 }

/-! ## ConversationStore: the durable slot (`localStorage`, key `chatMessages`)

The persist effect writes `JSON.stringify(messages)`; the restore effect reads
the slot and, when it holds a truthy string, calls `JSON.parse` with no
surrounding `try/catch`.  `stringifyMessages` below is the canonical compact
serialization `JSON.stringify` produces for an array of
`\x7b role, content \x7d` objects (keys in insertion order, `"` and `\`
escaped); `parseMessages` is `JSON.parse` restricted to that exact grammar,
returning `none` where `JSON.parse` would throw (or where it would produce a
value outside this grammar). -/

/-- Double-quote character. -/
def qu : Char := '"'

/-- Backslash character. -/
def bsl : Char := '\\'

/-- Left curly brace character. -/
def lcurl : Char := '\x7b'

/-- Right curly brace character. -/
def rcurl : Char := '\x7d'

/-- JSON escaping of a single character inside a string literal. -/
def escChar (c : Char) : List Char :=
  if c = qu then [bsl, qu] else if c = bsl then [bsl, bsl] else [c]

/-- JSON escaping of a character sequence. -/
def escList : List Char → List Char
  | [] => []
  | c :: cs => escChar c ++ escList cs

/-- The opening of a serialized message object, up to and including the
opening quote of the role value. -/
def roleKey : List Char :=
  [lcurl, qu, 'r', 'o', 'l', 'e', qu, ':', qu]

/-- The middle of a serialized message object: from after the closing quote
of the role value up to and including the opening quote of the content
value. -/
def contentKey : List Char :=
  [',', qu, 'c', 'o', 'n', 't', 'e', 'n', 't', qu, ':', qu]

/-- Serialized form of one message object. -/
def msgChars (m : Message) : List Char :=
  roleKey ++ (escList m.role.data ++
    (qu :: (contentKey ++ (escList m.content.data ++ (qu :: [rcurl])))))

/-- Serialized form of the remainder of a message array after the first
element: either the closing bracket, or a comma followed by the next element
and the remainder. -/
def restChars : List Message → List Char
  | [] => [']']
  | m :: ms => ',' :: (msgChars m ++ restChars ms)

/-- `JSON.stringify` on a message array. -/
def stringifyMessages (msgs : List Message) : String :=
  match msgs with
  | [] => String.mk ['[', ']']
  | m :: ms => String.mk ('[' :: (msgChars m ++ restChars ms))

/-- Consume an expected literal character sequence from the front of the
input, or fail. -/
def dropPre : List Char → List Char → Option (List Char)
  | [], cs => some cs
  | _ :: _, [] => none
  | p :: ps, c :: cs => if p = c then dropPre ps cs else none

/-- Parse the body of a JSON string literal (the opening quote already
consumed): unescape up to the next unescaped closing quote, returning the
string and the rest of the input. -/
def parseStrAux (acc : List Char) : List Char → Option (String × List Char)
  | [] => none
  | c :: cs =>
    if c = qu then some (String.mk acc.reverse, cs)
    else if c = bsl then
      match cs with
      | [] => none
      | d :: cs2 => parseStrAux (d :: acc) cs2
    else parseStrAux (c :: acc) cs

/-- Parse one serialized message object, returning it and the rest of the
input. -/
def parseMsg (cs : List Char) : Option (Message × List Char) :=
  (dropPre roleKey cs).bind fun cs1 =>
  (parseStrAux [] cs1).bind fun p1 =>
  (dropPre contentKey p1.2).bind fun cs3 =>
  (parseStrAux [] cs3).bind fun p2 =>
  match p2.2 with
  | [] => none
  | c :: cs5 => if c = rcurl then some (⟨p1.1, p2.1⟩, cs5) else none

/-- Parse the elements of a nonempty serialized message array (the opening
bracket already consumed), with fuel bounding the number of elements. -/
def parseItemsAux : Nat → List Char → Option (List Message × List Char)
  | 0, _ => none
  | fuel + 1, cs =>
    (parseMsg cs).bind fun p =>
    match p.2 with
    | [] => none
    | c :: cs3 =>
      if c = ']' then some ([p.1], cs3)
      else if c = ',' then
        (parseItemsAux fuel cs3).bind fun q => some (p.1 :: q.1, q.2)
      else none

/-- `JSON.parse` restricted to the canonical serialization of a message
array; `none` models a thrown `SyntaxError` (or a value outside the message
array grammar). -/
def parseMessages (s : String) : Option (List Message) :=
  match s.data with
  | [] => none
  | c :: cs =>
    if c = '[' then
      if cs = [']'] then some []
      else
        match parseItemsAux (cs.length + 1) cs with
        | some (ms, []) => some ms
        | _ => none
    else none

/-- The restore effect of `src/App.js`:
`const savedMessages = localStorage.getItem('chatMessages');
 if (savedMessages) setMessages(JSON.parse(savedMessages));`.
The slot content is `none` when no prior state exists; a falsy (empty) string
also skips the branch.  Since the `JSON.parse` call is not wrapped in any
`try/catch`, a parse failure is modelled as `Except.error` — the exception
propagates out of the effect. -/
def restoreMessages (saved : Option String) : Except String (List Message) :=
  match saved with
  | none => Except.ok []
  | some s =>
    if s = "" then Except.ok []
    else
      match parseMessages s with
      | some msgs => Except.ok msgs
      | none => Except.error "SyntaxError"

/-- Appending one message to the log (every `setMessages(prev => [...prev, m])`
in the source). -/
def appendMessage (msgs : List Message) (m : Message) : List Message :=
  msgs ++ [m]

/-- The persist effect of `src/App.js`: on every change of `messages` write
`JSON.stringify(messages)` — a full serialization of the complete in-memory
sequence — into the single `localStorage` slot. -/
def persistMessages (msgs : List Message) : String :=
  stringifyMessages msgs

/-! ## Round-trip lemmas for the durable slot -/

theorem stringMk_data (s : String) : String.mk s.data = s := by
  cases s
  rfl

theorem dropPre_append (pre rest : List Char) : dropPre pre (pre ++ rest) = some rest := by
  induction pre with
  | nil => simp [dropPre]
  | cons p ps ih => simp [dropPre, ih]

theorem parseStrAux_cons (acc : List Char) (c : Char) (cs : List Char) :
    parseStrAux acc (c :: cs) =
      if c = qu then some (String.mk acc.reverse, cs)
      else if c = bsl then
        match cs with
        | [] => none
        | d :: cs2 => parseStrAux (d :: acc) cs2
      else parseStrAux (c :: acc) cs := by
  rw [parseStrAux.eq_def]

theorem parseStrAux_escList (l : List Char) :
    ∀ (acc rest : List Char),
      parseStrAux acc (escList l ++ (qu :: rest)) = some (String.mk (acc.reverse ++ l), rest) := by
  induction l with
  | nil =>
    intro acc rest
    rw [escList, List.nil_append, parseStrAux_cons, if_pos rfl]
    simp
  | cons c cs ih =>
    intro acc rest
    have hbq : ¬ (bsl = qu) := by decide
    by_cases hq : c = qu
    · subst hq
      rw [escList, escChar, if_pos rfl]
      rw [show ([bsl, qu] ++ escList cs) ++ (qu :: rest) = bsl :: qu :: (escList cs ++ (qu :: rest)) by simp]
      rw [parseStrAux_cons, if_neg hbq, if_pos rfl]
      show parseStrAux (qu :: acc) (escList cs ++ (qu :: rest)) = _
      rw [ih (qu :: acc) rest]
      simp
    · by_cases hb : c = bsl
      · subst hb
        rw [escList, escChar, if_neg hbq, if_pos rfl]
        rw [show ([bsl, bsl] ++ escList cs) ++ (qu :: rest) = bsl :: bsl :: (escList cs ++ (qu :: rest)) by simp]
        rw [parseStrAux_cons, if_neg hbq, if_pos rfl]
        show parseStrAux (bsl :: acc) (escList cs ++ (qu :: rest)) = _
        rw [ih (bsl :: acc) rest]
        simp
      · rw [escList, escChar, if_neg hq, if_neg hb]
        rw [show ([c] ++ escList cs) ++ (qu :: rest) = c :: (escList cs ++ (qu :: rest)) by simp]
        rw [parseStrAux_cons, if_neg hq, if_neg hb, ih (c :: acc) rest]
        simp

theorem parseMsg_msgChars (m : Message) (rest : List Char) :
    parseMsg (msgChars m ++ rest) = some (m, rest) := by
  obtain ⟨role, content⟩ := m
  have h1 : msgChars ⟨role, content⟩ ++ rest =
      roleKey ++ (escList role.data ++
        (qu :: (contentKey ++ (escList content.data ++ (qu :: (rcurl :: rest)))))) := by
    simp [msgChars, List.append_assoc]
  rw [parseMsg, h1, dropPre_append]
  simp only [Option.some_bind]
  rw [parseStrAux_escList]
  simp only [Option.some_bind, List.reverse_nil, List.nil_append]
  rw [dropPre_append]
  simp only [Option.some_bind]
  rw [parseStrAux_escList]
  simp only [Option.some_bind, List.reverse_nil, List.nil_append]
  simp [stringMk_data]

theorem restChars_length (ms : List Message) : ms.length ≤ (restChars ms).length := by
  induction ms with
  | nil => simp [restChars]
  | cons m ms ih =>
    simp only [restChars, List.length_cons, List.length_append]
    omega

theorem parseItemsAux_cons (fuel : Nat) (cs : List Char) :
    parseItemsAux (fuel + 1) cs =
      (parseMsg cs).bind fun p =>
      match p.2 with
      | [] => none
      | c :: cs3 =>
        if c = ']' then some ([p.1], cs3)
        else if c = ',' then
          (parseItemsAux fuel cs3).bind fun q => some (p.1 :: q.1, q.2)
        else none := by
  rw [parseItemsAux.eq_def]

theorem parseItemsAux_restChars (ms : List Message) :
    ∀ (m : Message) (fuel : Nat), ms.length < fuel → ∀ (rest : List Char),
      parseItemsAux fuel (msgChars m ++ (restChars ms ++ rest)) = some (m :: ms, rest) := by
  induction ms with
  | nil =>
    intro m fuel hf rest
    obtain ⟨f, rfl⟩ : ∃ f, fuel = f + 1 := ⟨fuel - 1, by omega⟩
    rw [parseItemsAux_cons f _]
    rw [show restChars [] ++ rest = ']' :: rest from rfl]
    rw [parseMsg_msgChars]
    simp
  | cons m2 ms2 ih =>
    intro m fuel hf rest
    obtain ⟨f, rfl⟩ : ∃ f, fuel = f + 1 := ⟨fuel - 1, by omega⟩
    rw [parseItemsAux_cons f _]
    rw [show restChars (m2 :: ms2) ++ rest = ',' :: (msgChars m2 ++ (restChars ms2 ++ rest)) by
      simp [restChars, List.append_assoc]]
    rw [parseMsg_msgChars]
    simp only [Option.some_bind]
    have hne : ¬ ((',' : Char) = ']') := by decide
    rw [if_neg hne]
    rw [ih m2 f (by simpa using Nat.lt_of_succ_lt_succ hf) rest]
    simp

theorem parse_stringify (msgs : List Message) :
    parseMessages (stringifyMessages msgs) = some msgs := by
  cases msgs with
  | nil => rfl
  | cons m ms =>
    have hdata : (stringifyMessages (m :: ms)).data = '[' :: (msgChars m ++ restChars ms) := rfl
    rw [parseMessages, hdata]
    have hmsg : msgChars m ++ restChars ms = lcurl :: ((roleKey.tail ++
        (escList m.role.data ++ (qu :: (contentKey ++ (escList m.content.data ++ (qu :: [rcurl])))))) ++ restChars ms) := by
      simp [msgChars, roleKey, List.append_assoc]
    have hne : ¬ (msgChars m ++ restChars ms = [']']) := by
      rw [hmsg]
      intro h
      have := List.head_eq_of_cons_eq h
      exact absurd this (by decide)
    show (if (msgChars m ++ restChars ms) = [']'] then some [] else
      match parseItemsAux ((msgChars m ++ restChars ms).length + 1) (msgChars m ++ restChars ms) with
      | some (ms, []) => some ms
      | _ => none) = some (m :: ms)
    rw [if_neg hne]
    have hlen : ms.length < (msgChars m ++ restChars ms).length + 1 := by
      have h1 := restChars_length ms
      have h2 : (restChars ms).length ≤ (msgChars m ++ restChars ms).length := by
        simp [List.length_append]
      omega
    have := parseItemsAux_restChars ms m ((msgChars m ++ restChars ms).length + 1) hlen []
    rw [List.append_nil] at this
    rw [show msgChars m ++ restChars ms = msgChars m ++ (restChars ms ++ []) by simp] at this ⊢
    rw [this]

/-! ## Arithmetic of the progress computation -/

theorem floor_natDiv (a b : Nat) (hb : 0 < b) :
    ⌊(a : ℚ) / (b : ℚ)⌋ = ((a / b : ℕ) : ℤ) := by
  have hbq : (0:ℚ) < (b:ℚ) := by exact_mod_cast hb
  rw [Int.floor_eq_iff]
  constructor
  · rw [le_div_iff₀ hbq]
    exact_mod_cast Nat.div_mul_le_self a b
  · rw [div_lt_iff₀ hbq]
    have h : a < (a / b + 1) * b := by
      have h1 := Nat.div_add_mod a b
      have h2 := Nat.mod_lt a hb
      have h3 : (a / b + 1) * b = b * (a / b) + b := by ring
      omega
    exact_mod_cast h

theorem percentCompleted_round (l t : ℕ) (ht : 0 < t) :
    (percentCompleted l t : ℤ) = round (((l : ℚ) * 100) / (t : ℚ)) := by
  have htq : ((t:ℚ)) ≠ 0 := Nat.cast_ne_zero.mpr ht.ne'
  have key : ((l : ℚ) * 100) / (t : ℚ) + 1/2 = ((l : ℚ) * 100 * 2 + (t : ℚ)) / (2 * (t : ℚ)) := by
    rw [div_add_div _ _ htq two_ne_zero,
      div_eq_div_iff (mul_ne_zero htq two_ne_zero) (mul_ne_zero two_ne_zero htq)]
    ring
  rw [round_eq, key]
  rw [show ((l : ℚ) * 100 * 2 + (t : ℚ)) = ((l * 100 * 2 + t : ℕ) : ℚ) by push_cast; ring]
  rw [show ((2 : ℚ) * (t : ℚ)) = ((2 * t : ℕ) : ℚ) by push_cast; ring]
  rw [floor_natDiv _ _ (by omega)]
  rfl

/-! ## Helper lemmas shared between claims -/

theorem data_stringMk (l : List Char) : (String.mk l).data = l := rfl

theorem stringify_ne_empty (msgs : List Message) : stringifyMessages msgs ≠ "" := by
  intro h
  have hd : (stringifyMessages msgs).data = "".data := congrArg String.data h
  cases msgs with
  | nil => simp [stringifyMessages, data_stringMk] at hd
  | cons m ms => simp [stringifyMessages, data_stringMk] at hd

theorem restore_persist (l : List Message) :
    restoreMessages (some (persistMessages l)) = Except.ok l := by
  show (if persistMessages l = "" then Except.ok [] else
        match parseMessages (persistMessages l) with
        | some msgs => Except.ok msgs
        | none => Except.error "SyntaxError") = Except.ok l
  rw [show persistMessages l = stringifyMessages l from rfl,
    if_neg (stringify_ne_empty l), parse_stringify]

/-- Sample registry state used by concrete witnesses. -/
def sampleDeleteState : AppState :=
  ⟨[], "", false, [⟨"d1", "a.pdf"⟩, ⟨"d2", "b.pdf"⟩]⟩

/-- Sample conversation state used by concrete witnesses. -/
def sampleSendState : AppState :=
  ⟨[⟨"user", "old"⟩], "hi", true, []⟩

/-! ## The claims -/

/-- C3: `needsWebSearch` returns `true` on the latest-stock-price query
(temporal and trigger signals match), `false` on the how-do-I-open-my-document
query (the wh-word signal is suppressed by the document exclusion and no
temporal or trigger signal fires), and `false` on the summarize-chapter-two
query (no signal fires). -/
theorem needsWebSearch_examples :
    needsWebSearch latestStockPriceQuery = true ∧
    needsWebSearch "How do I open my document?" = false ∧
    needsWebSearch "Summarize chapter two" = false := by
  refine ⟨by decide, by decide, by decide⟩

/-- C10: the temporal signal matches raw substrings of the lower-cased text
and is not subject to the document/file exclusion — any string whose
lower-casing contains `now` as a substring (even inside a larger word, even
alongside `document` or `file`) makes `needsWebSearch` return `true`. -/
theorem needsWebSearch_now_substring (s : String)
    (h : strContains (lowerStr s) "now" = true) : needsWebSearch s = true := by
  have hmem : "now" ∈ timePatterns := by decide
  have hany : timePatterns.any (fun p => strContains (lowerStr s) p) = true :=
    List.any_eq_true.mpr ⟨"now", hmem, h⟩
  simp [needsWebSearch, hany]

/-- Witness for C10: the sentence `I acknowledge this document` contains `now`
inside `acknowledge`, and `needsWebSearch` returns `true` on it although it
contains `document`. -/
theorem needsWebSearch_now_substring_witness :
    strContains (lowerStr "I acknowledge this document") "now" = true ∧
    needsWebSearch "I acknowledge this document" = true :=
  ⟨by decide, needsWebSearch_now_substring "I acknowledge this document" (by decide)⟩

/-- C1 counterexample: the stored value `x` fails to JSON-parse, and `restore`
does not yield the empty sequence — the `JSON.parse` exception propagates
(`Except.error`), because the restore effect has no `try/catch`. -/
theorem restore_malformed_raises :
    parseMessages "x" = none ∧
    restoreMessages (some "x") = Except.error "SyntaxError" :=
  ⟨rfl, rfl⟩

/-- C1 amended: `restore` yields the empty sequence when no prior state exists
(absent slot or empty string), yields the stored sequence when the stored
value parses (in particular on every value the persist path writes), but when
a non-empty stored value fails to JSON-parse the parse error propagates to the
caller instead of being treated as empty history. -/
theorem restore_amended :
    restoreMessages none = Except.ok [] ∧
    restoreMessages (some "") = Except.ok [] ∧
    (∀ msgs : List Message, restoreMessages (some (persistMessages msgs)) = Except.ok msgs) ∧
    (∀ s : String, s ≠ "" → parseMessages s = none →
      restoreMessages (some s) = Except.error "SyntaxError") := by
  refine ⟨rfl, rfl, restore_persist, ?_⟩
  intro s h1 h2
  show (if s = "" then Except.ok [] else
        match parseMessages s with
        | some msgs => Except.ok msgs
        | none => Except.error "SyntaxError") = Except.error "SyntaxError"
  rw [if_neg h1, h2]

/-- Witness for the amended C1, at the malformed stored value `abc`. -/
theorem restore_amended_witness :
    restoreMessages (some "abc") = Except.error "SyntaxError" :=
  restore_amended.2.2.2 "abc" (by decide) (by rfl)

/-- C4: persistence round-trip — for every starting conversation state,
appending `m1` then `m2` and restoring from the durable slot (which holds the
full serialization of the complete in-memory sequence written by the persist
effect) yields exactly the prior sequence extended by `[m1, m2]` in order. -/
theorem conversation_roundtrip (msgs : List Message) (m1 m2 : Message) :
    restoreMessages (some (persistMessages (appendMessage (appendMessage msgs m1) m2))) =
      Except.ok (msgs ++ [m1, m2]) := by
  rw [restore_persist]
  simp [appendMessage]

/-- C5: when the input is blank (empty after trimming whitespace), the
send-message action is a no-op — the state is returned unchanged, no message
is appended, and no request is handed to the chat collaborator. -/
theorem sendMessage_blank_noop (s : AppState) (r : Except Unit String)
    (h : isBlank s.inputMessage = true) :
    handleSendMessage s r = (s, none) := by
  simp [handleSendMessage, h]

/-- Witness for C5: a whitespace-only input leaves the state untouched. -/
theorem sendMessage_blank_noop_witness :
    handleSendMessage ⟨[], "  ", false, []⟩ (Except.ok "hi") = (⟨[], "  ", false, []⟩, none) ∧
    isBlank "  " = true :=
  ⟨sendMessage_blank_noop ⟨[], "  ", false, []⟩ (Except.ok "hi") (by decide), by decide⟩

/-- C2: when the chat collaborator call fails after a (non-blank) send, the
log grows by exactly the optimistic user message followed by the fixed
fallback assistant message, and the conversation lane returns to idle
(`isLoading = false`); the handler returns normally, so the failure never
escapes uncaught. -/
theorem sendMessage_failure (s : AppState) (h : isBlank s.inputMessage = false) :
    (handleSendMessage s (Except.error ())).1.messages =
      s.messages ++ [⟨"user", s.inputMessage⟩, ⟨"assistant", fallbackContent⟩] ∧
    (handleSendMessage s (Except.error ())).1.messages.length = s.messages.length + 2 ∧
    (handleSendMessage s (Except.error ())).1.isLoading = false := by
  refine ⟨?_, ?_, ?_⟩ <;> simp [handleSendMessage, h]

/-- Witness for C2, at a concrete non-blank state. -/
theorem sendMessage_failure_witness :
    (handleSendMessage sampleSendState (Except.error ())).1.messages =
      sampleSendState.messages ++
        [⟨"user", sampleSendState.inputMessage⟩, ⟨"assistant", fallbackContent⟩] ∧
    (handleSendMessage sampleSendState (Except.error ())).1.messages.length =
      sampleSendState.messages.length + 2 ∧
    (handleSendMessage sampleSendState (Except.error ())).1.isLoading = false :=
  sendMessage_failure sampleSendState (by decide)

/-- C6: a successful delete of id `d` leaves no entry with that id in the
registry, keeps every other previously-present entry (in original relative
order, being a sublist of the previous registry), and appends exactly the one
confirmation assistant message. -/
theorem documentDelete_success (s : AppState) (d : String) :
    (∀ doc ∈ (handleDocumentDelete s d (Except.ok ())).documents, doc.document_id ≠ d) ∧
    (∀ doc ∈ s.documents, doc.document_id ≠ d →
        doc ∈ (handleDocumentDelete s d (Except.ok ())).documents) ∧
    List.Sublist (handleDocumentDelete s d (Except.ok ())).documents s.documents ∧
    (handleDocumentDelete s d (Except.ok ())).messages = s.messages ++ [deleteSuccessMsg] := by
  refine ⟨?_, ?_, ?_, rfl⟩
  · intro doc hmem
    have h2 : doc ∈ s.documents.filter (fun doc => doc.document_id != d) := hmem
    rw [List.mem_filter] at h2
    simpa using h2.2
  · intro doc hmem hne
    show doc ∈ s.documents.filter (fun doc => doc.document_id != d)
    rw [List.mem_filter]
    exact ⟨hmem, by simpa using hne⟩
  · exact List.filter_sublist s.documents

/-- Witness for C6: deleting `d1` from a registry holding `d1` and `d2` keeps
`d2` and appends the confirmation message. -/
theorem documentDelete_success_witness :
    ((⟨"d2", "b.pdf"⟩ : Document) ∈
        (handleDocumentDelete sampleDeleteState "d1" (Except.ok ())).documents) ∧
    (handleDocumentDelete sampleDeleteState "d1" (Except.ok ())).messages =
      sampleDeleteState.messages ++ [deleteSuccessMsg] :=
  ⟨(documentDelete_success sampleDeleteState "d1").2.1 ⟨"d2", "b.pdf"⟩ (by decide) (by decide),
   (documentDelete_success sampleDeleteState "d1").2.2.2⟩

/-- C7: a failed delete leaves the registry exactly equal to its pre-call
value and appends the error assistant message; the handler returns normally
(the document lane is idle again). -/
theorem documentDelete_failure (s : AppState) (d : String) :
    (handleDocumentDelete s d (Except.error ())).documents = s.documents ∧
    (handleDocumentDelete s d (Except.error ())).messages = s.messages ++ [deleteErrorMsg] :=
  ⟨rfl, rfl⟩

/-- C8: each reported progress value is the half-up rounding of
`loaded * 100 / total`; the reported values are monotone in the transported
byte count (hence non-decreasing along an upload, where `loaded` is
non-decreasing); they lie within `[0, 100]` whenever `loaded ≤ total`; and
once the upload handler finishes — on the success and on the failure path —
the status is idle and the progress is reset to `0`. -/
theorem uploadProgress_spec :
    (∀ loaded total : ℕ, 0 < total →
        (percentCompleted loaded total : ℤ) = round (((loaded : ℚ) * 100) / (total : ℚ))) ∧
    (∀ l1 l2 total : ℕ, l1 ≤ l2 → percentCompleted l1 total ≤ percentCompleted l2 total) ∧
    (∀ loaded total : ℕ, 0 < total → loaded ≤ total → percentCompleted loaded total ≤ 100) ∧
    (∀ (s : UploadState) (f : String) (r : Except Unit Unit), s.selectedFile = some f →
        (handleUpload s r).isUploading = false ∧ (handleUpload s r).uploadProgress = 0) := by
  refine ⟨percentCompleted_round, ?_, ?_, ?_⟩
  · intro l1 l2 t h
    exact Nat.div_le_div_right (by omega)
  · intro l t ht hlt
    have h2t : 0 < 2 * t := by omega
    have h101 : percentCompleted l t < 101 := by
      rw [percentCompleted, Nat.div_lt_iff_lt_mul h2t]
      omega
    omega
  · intro s f r hsel
    cases s with
    | mk sel up pr =>
      cases hsel
      cases r with
      | ok u => exact ⟨rfl, rfl⟩
      | error e => exact ⟨rfl, rfl⟩

/-- Witness for C8 at concrete byte counts and a concrete failed upload. -/
theorem uploadProgress_spec_witness :
    (percentCompleted 1 3 : ℤ) = round (((1 : ℕ) : ℚ) * 100 / ((3 : ℕ) : ℚ)) ∧
    percentCompleted 1 3 ≤ percentCompleted 2 3 ∧
    percentCompleted 2 3 ≤ 100 ∧
    ((handleUpload ⟨some "f.pdf", true, 37⟩ (Except.error ())).isUploading = false ∧
      (handleUpload ⟨some "f.pdf", true, 37⟩ (Except.error ())).uploadProgress = 0) :=
  ⟨uploadProgress_spec.1 1 3 (by decide),
   uploadProgress_spec.2.1 1 2 3 (by decide),
   uploadProgress_spec.2.2.1 2 3 (by decide) (by decide),
   uploadProgress_spec.2.2.2 ⟨some "f.pdf", true, 37⟩ "f.pdf" (Except.error ()) rfl⟩

/-- C9: append-only conversation invariant — after every operation of the
core (send success or failure including the blank no-op, upload success,
delete success or failure) the previous message log is an initial segment of
the new one: messages are only ever added at the tail. -/
theorem messages_append_only :
    (∀ (s : AppState) (r : Except Unit String),
        ∃ t, (handleSendMessage s r).1.messages = s.messages ++ t) ∧
    (∀ (s : AppState) (fileName : String) (docs : List Document),
        ∃ t, (handleFileUpload s fileName docs).messages = s.messages ++ t) ∧
    (∀ (s : AppState) (d : String) (r : Except Unit Unit),
        ∃ t, (handleDocumentDelete s d r).messages = s.messages ++ t) := by
  refine ⟨?_, ?_, ?_⟩
  · intro s r
    by_cases hb : isBlank s.inputMessage = true
    · exact ⟨[], by simp [handleSendMessage, hb]⟩
    · cases r with
      | ok content =>
        exact ⟨[⟨"user", s.inputMessage⟩, ⟨"assistant", content⟩],
          by simp [handleSendMessage, hb]⟩
      | error e =>
        exact ⟨[⟨"user", s.inputMessage⟩, ⟨"assistant", fallbackContent⟩],
          by simp [handleSendMessage, hb]⟩
  · intro s fileName docs
    exact ⟨[⟨"assistant", uploadSuccessContent fileName⟩], rfl⟩
  · intro s d r
    cases r with
    | ok u => exact ⟨[deleteSuccessMsg], rfl⟩
    | error e => exact ⟨[deleteErrorMsg], rfl⟩
